import Mathlib

/-!
Verification of the HTTP/1.1 request parser of `rust-webserver`
(src/http/request/mod.rs and src/http/request/util.rs).

Modelling conventions, shared by all definitions below:
* a byte is a `Nat` (always < 256 in the source; byte literals such as
  `b'!'` are written as their numeric code, 33);
* the byte stream consumed by the parser functions is a `List Nat`
  (the sequence of bytes produced by the `StreamReader` iterator);
* `String::from_utf8` is modelled on ASCII-only byte lists (the only lists
  the parser ever builds): it succeeds exactly when every byte is < 128;
* a Rust `Result<A, ParseError>` together with the possibility of a `panic`
  (from `.unwrap()`) is modelled by `ParseResult`, whose `panicked`
  constructor marks a run that would have panicked;
* the byte-range match arms of the source are named Bool functions
  (`is_tchar`, `is_target_byte`, `is_ows`, `value_keep`, `is_high_byte`),
  each recording exactly the ranges of the corresponding arm;
* the `HashMap<String, String>` of headers is modelled by the insertion
  sequence `List (String × String)`; `HashMap::insert`'s overwrite
  semantics is recovered by `get_header`, which returns the value of the
  last binding of a key, so later `add_header` calls win;
* the `StreamReader` over a live stream is modelled by an explicit state:
  the list of chunks future `read` calls will produce, the buffer, the
  cursor `index` and the `read` count.  Read errors (which the source
  treats exactly like end of stream) are not modelled separately.
-/

namespace WebServer

/-- Byte classifier from `TokenType::from` in util.rs: `tchar` per
RFC 7230 — one of the fifteen marks, a digit, or a letter. -/
def is_tchar (c : Nat) : Bool :=
  c = 33 || c = 35 || c = 36 || c = 37 || c = 38 || c = 39 || c = 42 ||
  c = 43 || c = 45 || c = 46 || c = 94 || c = 95 || c = 96 || c = 124 ||
  c = 126 || (48 ≤ c && c ≤ 57) || (97 ≤ c && c ≤ 122) ||
  (65 ≤ c && c ≤ 90)

/-- The `TokenType` enum of util.rs. -/
inductive TokenType
  | TChar (c : Nat)
  | Invalid (c : Nat)
deriving DecidableEq

/-- The classifier `TokenType::from` (renamed: `from` is reserved in Lean). -/
def TokenType.ofByte (c : Nat) : TokenType :=
  if is_tchar c then TokenType.TChar c else TokenType.Invalid c

/-- The `ParseError` enum of util.rs; the `Box<Error>` payload of
`Generic` is modelled by its description string. -/
inductive ParseError
  | EOF
  | IllegalCharacter
  | Generic (err : String) (http_response : Nat)
deriving DecidableEq

/-- `ParseError::http_response_code`: the HTTP status to send, or `none`
when the connection should be closed without a response. -/
def ParseError.http_response_code : ParseError → Option Nat
  | ParseError.EOF => none
  | ParseError.IllegalCharacter => some 400
  | ParseError.Generic _ r => some r

/-- Outcome of running a parser function: `Ok`, `Err e`, or a panic from
an `.unwrap()` that failed.  The `panicked` constructor exists so that
"this code never panics" is a provable statement. -/
inductive ParseResult (α : Type)
  | ok : α → ParseResult α
  | err : ParseError → ParseResult α
  | panicked : ParseResult α
deriving DecidableEq

/-- Sequencing of parser steps, as done by the `?` operator in the source:
errors and panics propagate. -/
def ParseResult.bind {α β : Type} : ParseResult α → (α → ParseResult β) → ParseResult β
  | ParseResult.ok a, f => f a
  | ParseResult.err e, _ => ParseResult.err e
  | ParseResult.panicked, _ => ParseResult.panicked

/-- `String::from_utf8` restricted to the ASCII-only byte lists the parser
builds: succeeds exactly when every byte is < 128, producing the string of
the corresponding characters. -/
def string_from_utf8 (bs : List Nat) : Option String :=
  if bs.all (fun b => b < 128) then
    some (String.mk (bs.map (fun b => Char.ofNat b)))
  else
    none

/-- The string of an ASCII byte list (the value `string_from_utf8` yields
when it succeeds). -/
def bytes_to_string (bs : List Nat) : String :=
  String.mk (bs.map (fun b => Char.ofNat b))

/-- The `Method` enum of mod.rs; `Custom` holds the verbatim verb bytes. -/
inductive Method
  | Get | Post | Patch | Delete | Put | Head | Connect | Options | Trace
  | Custom (name : List Nat)
deriving DecidableEq

/-- `Method::from` (renamed: `from` is reserved in Lean): case-sensitive
match of the verb bytes against the nine known verbs. -/
def Method.ofName (name : List Nat) : Method :=
  if name = [71, 69, 84] then Method.Get else
  if name = [80, 79, 83, 84] then Method.Post else
  if name = [80, 65, 84, 67, 72] then Method.Patch else
  if name = [68, 69, 76, 69, 84, 69] then Method.Delete else
  if name = [80, 85, 84] then Method.Put else
  if name = [72, 69, 65, 68] then Method.Head else
  if name = [67, 79, 78, 78, 69, 67, 84] then Method.Connect else
  if name = [79, 80, 84, 73, 79, 78, 83] then Method.Options else
  if name = [84, 82, 65, 67, 69] then Method.Trace else
  Method.Custom name

/-- The byte lists of the nine known verbs (GET, POST, PATCH, DELETE, PUT,
HEAD, CONNECT, OPTIONS, TRACE). -/
def known_verbs : List (List Nat) :=
  [[71, 69, 84], [80, 79, 83, 84], [80, 65, 84, 67, 72],
   [68, 69, 76, 69, 84, 69], [80, 85, 84], [72, 69, 65, 68],
   [67, 79, 78, 78, 69, 67, 84], [79, 80, 84, 73, 79, 78, 83],
   [84, 82, 65, 67, 69]]

/-- The `Request` struct of mod.rs.  `headers` is the insertion sequence
of `add_header` calls (see `get_header` for the map semantics). -/
structure Request where
  version : Nat × Nat
  method : Method
  target : String
  headers : List (String × String)
  body : Option (List Nat)
deriving DecidableEq

/-- The `RequestBuilder` struct of mod.rs. -/
structure RequestBuilder where
  version : Option (Nat × Nat)
  method : Option Method
  target : Option String
  headers : List (String × String)
  body : Option (List Nat)
deriving DecidableEq

/-- `RequestBuilder::new`. -/
def RequestBuilder.new : RequestBuilder :=
  { version := none, method := none, target := none, headers := [], body := none }

/-- `RequestBuilder::set_version`. -/
def RequestBuilder.set_version (rb : RequestBuilder) (major minor : Nat) : RequestBuilder :=
  { rb with version := some (major, minor) }

/-- `RequestBuilder::set_method`. -/
def RequestBuilder.set_method (rb : RequestBuilder) (m : Method) : RequestBuilder :=
  { rb with method := some m }

/-- `RequestBuilder::set_target`. -/
def RequestBuilder.set_target (rb : RequestBuilder) (t : String) : RequestBuilder :=
  { rb with target := some t }

/-- `RequestBuilder::set_body`. -/
def RequestBuilder.set_body (rb : RequestBuilder) (b : List Nat) : RequestBuilder :=
  { rb with body := some b }

/-- `RequestBuilder::add_header`: `HashMap::insert`, modelled by appending
to the insertion sequence (lookup takes the last binding, so the latest
insert wins, as `insert` does). -/
def RequestBuilder.add_header (rb : RequestBuilder) (key val : String) : RequestBuilder :=
  { rb with headers := rb.headers ++ [(key, val)] }

/-- Lookup in the modelled header map: the value of the last binding of
`key` in the insertion sequence (matching `HashMap`'s overwrite-on-insert
semantics). -/
def get_header (hs : List (String × String)) (key : String) : Option String :=
  match hs with
  | [] => none
  | (k, v) :: rest =>
    match get_header rest key with
    | some r => some r
    | none => if k = key then some v else none

/-- `RequestBuilder::into_request`: `some` exactly when version, method
and target have all been set. -/
def RequestBuilder.into_request (rb : RequestBuilder) : Option Request :=
  match rb.version, rb.method, rb.target with
  | some v, some m, some t =>
    some { version := v, method := m, target := t, headers := rb.headers, body := rb.body }
  | _, _, _ => none

/-- Loop body of `Request::parse_request_method`, with the accumulated
method bytes made explicit: a tchar is appended, a space ends the method
(via `Method::from`), any other byte is an illegal character, and end of
stream is EOF. -/
def parse_request_method_aux (method : List Nat) : List Nat → ParseResult (Method × List Nat)
  | [] => ParseResult.err ParseError.EOF
  | b :: rest =>
    match TokenType.ofByte b with
    | TokenType.TChar c => parse_request_method_aux (method ++ [c]) rest
    | TokenType.Invalid c =>
      if c = 32 then ParseResult.ok (Method.ofName method, rest)
      else ParseResult.err ParseError.IllegalCharacter

/-- `Request::parse_request_method`. -/
def parse_request_method (input : List Nat) : ParseResult (Method × List Nat) :=
  parse_request_method_aux [] input

/-- Byte classifier of `Request::parse_request_target`'s match arm
`b'!' | b'#'...b';' | b'=' | b'?'...b'[' | b']'...b'z' | b'|' | b'~'`
(the RFC 3986 URI-allowed bytes). -/
def is_target_byte (b : Nat) : Bool :=
  b = 33 || (35 ≤ b && b ≤ 59) || b = 61 || (63 ≤ b && b ≤ 91) ||
  (93 ≤ b && b ≤ 122) || b = 124 || b = 126

/-- Loop body of `Request::parse_request_target`, with the accumulated
target bytes made explicit: an allowed byte is appended, a space ends the
target (converted by `String::from_utf8(..).unwrap()`, whose failure is a
panic), any other byte is an illegal character, end of stream is EOF. -/
def parse_request_target_aux (target : List Nat) : List Nat → ParseResult (String × List Nat)
  | [] => ParseResult.err ParseError.EOF
  | b :: rest =>
    if is_target_byte b then parse_request_target_aux (target ++ [b]) rest
    else if b = 32 then
      match string_from_utf8 target with
      | some s => ParseResult.ok (s, rest)
      | none => ParseResult.panicked
    else ParseResult.err ParseError.IllegalCharacter

/-- `Request::parse_request_target`. -/
def parse_request_target (input : List Nat) : ParseResult (String × List Nat) :=
  parse_request_target_aux [] input

/-- The literal `"HTTP/"` as bytes. -/
def http_literal : List Nat := [72, 84, 84, 80, 47]

/-- The literal-matching loop of `Request::parse_request_version`: each
expected byte must appear next in the input; a different byte is an
illegal character, end of stream is EOF. -/
def parse_literal : List Nat → List Nat → ParseResult (List Nat)
  | [], input => ParseResult.ok input
  | _ :: _, [] => ParseResult.err ParseError.EOF
  | e :: es, b :: rest =>
    if b = e then parse_literal es rest
    else ParseResult.err ParseError.IllegalCharacter

/-- One digit of `Request::parse_request_version`: a byte in 48–57 yields
its value minus 48; any other byte is an illegal character, end of stream
is EOF. -/
def parse_digit : List Nat → ParseResult (Nat × List Nat)
  | [] => ParseResult.err ParseError.EOF
  | n :: rest =>
    if 48 ≤ n && n ≤ 57 then ParseResult.ok (n - 48, rest)
    else ParseResult.err ParseError.IllegalCharacter

/-- One expected single byte of `Request::parse_request_version` (the
`.`, `\r` and `\n` matches). -/
def parse_single (c : Nat) : List Nat → ParseResult (List Nat)
  | [] => ParseResult.err ParseError.EOF
  | b :: rest =>
    if b = c then ParseResult.ok rest
    else ParseResult.err ParseError.IllegalCharacter

/-- `Request::parse_request_version`: the literal `HTTP/`, a digit, `.`,
a digit, `\r`, `\n`; returns (major, minor). -/
def parse_request_version (input : List Nat) : ParseResult ((Nat × Nat) × List Nat) :=
  ParseResult.bind (parse_literal http_literal input) (fun r1 =>
  ParseResult.bind (parse_digit r1) (fun mr =>
  ParseResult.bind (parse_single 46 mr.2) (fun r2 =>
  ParseResult.bind (parse_digit r2) (fun nr =>
  ParseResult.bind (parse_single 13 nr.2) (fun r3 =>
  ParseResult.bind (parse_single 10 r3) (fun r4 =>
  ParseResult.ok ((mr.1, nr.1), r4)))))))

/-- `Request::parse_request_line`: method, target, version, each recorded
in the builder. -/
def parse_request_line (builder : RequestBuilder) (input : List Nat) :
    ParseResult (RequestBuilder × List Nat) :=
  ParseResult.bind (parse_request_method input) (fun mr =>
  ParseResult.bind (parse_request_target mr.2) (fun tr =>
  ParseResult.bind (parse_request_version tr.2) (fun vr =>
  ParseResult.ok
    ((((builder.set_method mr.1).set_target tr.1).set_version vr.1.1 vr.1.2), vr.2))))

/-- The `ParserState` enum local to `Request::parse_headers`. -/
inductive ParserState
  | Start
  | Name (name : List Nat)
  | ValueLeadingWS (name : String)
  | Value (name : String) (value : List Nat)
  | NewLine
  | FinalNewLine
deriving DecidableEq

/-- Result of dispatching one byte in the header FSM: continue in a new
state (possibly with a header recorded in the builder), or the block is
complete (`break 'outer`). -/
inductive HeaderStep
  | next (builder : RequestBuilder) (state : ParserState)
  | done (builder : RequestBuilder)
deriving DecidableEq

/-- The whitespace arm `b' ' | b'\t'` of the `ValueLeadingWS` state. -/
def is_ows (b : Nat) : Bool := b = 32 || b = 9

/-- The arm `b'\t' | b' '...b'~'` of the `Value` state: the bytes that are
appended to the value. -/
def value_keep (b : Nat) : Bool := b = 9 || (32 ≤ b && b ≤ 126)

/-- The arm `0x80...0xFF` of the `Value` state: the bytes that are
silently discarded. -/
def is_high_byte (b : Nat) : Bool := 128 ≤ b && b ≤ 255

/-- The bytes the `Value` state consumes without failing: appended bytes
plus the silently discarded high range. -/
def is_value_byte (b : Nat) : Bool := value_keep b || is_high_byte b

/-- The `Name` arm of the header FSM: a tchar is appended; `:` freezes the
name via `String::from_utf8(..).unwrap()` (failure is a panic) and moves
to `ValueLeadingWS`; any other byte is an illegal character. -/
def name_step (builder : RequestBuilder) (n : List Nat) (b : Nat) : ParseResult HeaderStep :=
  match TokenType.ofByte b with
  | TokenType.TChar c => ParseResult.ok (HeaderStep.next builder (ParserState.Name (n ++ [c])))
  | TokenType.Invalid c =>
    if c = 58 then
      match string_from_utf8 n with
      | some name => ParseResult.ok (HeaderStep.next builder (ParserState.ValueLeadingWS name))
      | none => ParseResult.panicked
    else ParseResult.err ParseError.IllegalCharacter

/-- The `Value` arm of the header FSM: tab or visible ASCII (`value_keep`)
is appended; 0x80–0xFF (`is_high_byte`) is silently discarded; `\r`
freezes the value via `String::from_utf8(..).unwrap()` (failure is a
panic), records the header and moves to `NewLine`; any other byte is an
illegal character. -/
def value_step (builder : RequestBuilder) (n : String) (v : List Nat) (b : Nat) :
    ParseResult HeaderStep :=
  if value_keep b then
    ParseResult.ok (HeaderStep.next builder (ParserState.Value n (v ++ [b])))
  else if is_high_byte b then
    ParseResult.ok (HeaderStep.next builder (ParserState.Value n v))
  else if b = 13 then
    match string_from_utf8 v with
    | some value => ParseResult.ok (HeaderStep.next (builder.add_header n value) ParserState.NewLine)
    | none => ParseResult.panicked
  else ParseResult.err ParseError.IllegalCharacter

/-- One byte of the header FSM of `Request::parse_headers`.  The source's
"move to another state without consuming" transitions (`Start` → `Name`,
`ValueLeadingWS` → `Value`, via `continue` in the inner loop) are unfolded
into direct calls of the target state's arm on the same byte. -/
def parse_headers_step (builder : RequestBuilder) (state : ParserState) (b : Nat) :
    ParseResult HeaderStep :=
  match state with
  | ParserState.Start =>
    if b = 13 then ParseResult.ok (HeaderStep.next builder ParserState.FinalNewLine)
    else name_step builder [] b
  | ParserState.Name n => name_step builder n b
  | ParserState.ValueLeadingWS n =>
    if is_ows b then ParseResult.ok (HeaderStep.next builder (ParserState.ValueLeadingWS n))
    else value_step builder n [] b
  | ParserState.Value n v => value_step builder n v b
  | ParserState.NewLine =>
    if b = 10 then ParseResult.ok (HeaderStep.next builder ParserState.Start)
    else ParseResult.err ParseError.IllegalCharacter
  | ParserState.FinalNewLine =>
    if b = 10 then ParseResult.ok (HeaderStep.done builder)
    else ParseResult.err ParseError.IllegalCharacter

/-- The outer loop of `Request::parse_headers`, from an arbitrary state:
end of stream in any state is EOF; otherwise the next byte is dispatched
through the FSM. -/
def parse_headers_from (builder : RequestBuilder) (state : ParserState) :
    List Nat → ParseResult (RequestBuilder × List Nat)
  | [] => ParseResult.err ParseError.EOF
  | b :: rest =>
    match parse_headers_step builder state b with
    | ParseResult.err e => ParseResult.err e
    | ParseResult.panicked => ParseResult.panicked
    | ParseResult.ok (HeaderStep.next builder2 state2) => parse_headers_from builder2 state2 rest
    | ParseResult.ok (HeaderStep.done builder2) => ParseResult.ok (builder2, rest)

/-- `Request::parse_headers`: the FSM run from `Start`. -/
def parse_headers (builder : RequestBuilder) (input : List Nat) :
    ParseResult (RequestBuilder × List Nat) :=
  parse_headers_from builder ParserState.Start input

/-- `Request::from` (renamed: `from` is reserved in Lean): the request
line, then the headers, then `into_request().unwrap()` (whose failure is a
panic). -/
def request_from (input : List Nat) : ParseResult Request :=
  ParseResult.bind (parse_request_line RequestBuilder.new input) (fun br =>
  ParseResult.bind (parse_headers br.1 br.2) (fun hr =>
  match hr.1.into_request with
  | some req => ParseResult.ok req
  | none => ParseResult.panicked))

/-- The `StreamReader` state of util.rs: the chunks future `read` calls on
the underlying stream will yield, the internal buffer, the cursor `index`
and the `read` count.  An exhausted stream (empty `chunks`) reads 0 bytes,
as `Read::read` does at end of stream. -/
structure StreamReader where
  chunks : List (List Nat)
  buffer : List Nat
  index : Nat
  read : Nat
deriving DecidableEq

/-- `StreamReader::read` (renamed to avoid the `read` field): refill the
buffer from the stream, overwriting its first bytes, and reset the cursor.
Read errors, which the source folds into "no byte", are not modelled, so
the refill always succeeds. -/
def StreamReader.fill_buffer (s : StreamReader) : Bool × StreamReader :=
  match s.chunks with
  | [] => (true, { s with read := 0, index := 0 })
  | c :: cs =>
    (true, { s with chunks := cs, buffer := c ++ s.buffer.drop c.length, read := c.length, index := 0 })

/-- `StreamReader::next` (the `Iterator` impl): refill when the buffer is
exhausted; `none` when nothing was read; otherwise the byte at the cursor,
advancing the cursor. -/
def StreamReader.next (s : StreamReader) : Option Nat × StreamReader :=
  if s.index ≥ s.read then
    match s.fill_buffer with
    | (false, s1) => (none, s1)
    | (true, s1) =>
      if s1.index ≥ s1.read then (none, s1)
      else (some (s1.buffer.getD s1.index 0), { s1 with index := s1.index + 1 })
  else
    (some (s.buffer.getD s.index 0), { s with index := s.index + 1 })

/-- `StreamReader::step_back`: rewind the cursor one position when it is
not at the start of the buffer, else fail leaving the state unchanged. -/
def StreamReader.step_back (s : StreamReader) : Option Unit × StreamReader :=
  if s.index > 0 then (some (), { s with index := s.index - 1 })
  else (none, s)

end WebServer


namespace WebServer

lemma parse_request_method_aux_nil (acc : List Nat) :
    parse_request_method_aux acc [] = ParseResult.err ParseError.EOF := rfl

lemma parse_request_method_aux_cons (acc : List Nat) (b : Nat) (rest : List Nat) :
    parse_request_method_aux acc (b :: rest) =
      match TokenType.ofByte b with
      | TokenType.TChar c => parse_request_method_aux (acc ++ [c]) rest
      | TokenType.Invalid c =>
        if c = 32 then ParseResult.ok (Method.ofName acc, rest)
        else ParseResult.err ParseError.IllegalCharacter := rfl

lemma parse_request_target_aux_nil (acc : List Nat) :
    parse_request_target_aux acc [] = ParseResult.err ParseError.EOF := rfl

lemma parse_request_target_aux_cons (acc : List Nat) (b : Nat) (rest : List Nat) :
    parse_request_target_aux acc (b :: rest) =
      if is_target_byte b then parse_request_target_aux (acc ++ [b]) rest
      else if b = 32 then
        match string_from_utf8 acc with
        | some s => ParseResult.ok (s, rest)
        | none => ParseResult.panicked
      else ParseResult.err ParseError.IllegalCharacter := rfl

lemma parse_headers_from_nil (builder : RequestBuilder) (state : ParserState) :
    parse_headers_from builder state [] = ParseResult.err ParseError.EOF := rfl

lemma parse_headers_from_cons (builder : RequestBuilder) (state : ParserState) (b : Nat)
    (rest : List Nat) :
    parse_headers_from builder state (b :: rest) =
      match parse_headers_step builder state b with
      | ParseResult.err e => ParseResult.err e
      | ParseResult.panicked => ParseResult.panicked
      | ParseResult.ok (HeaderStep.next builder2 state2) => parse_headers_from builder2 state2 rest
      | ParseResult.ok (HeaderStep.done builder2) => ParseResult.ok (builder2, rest) := rfl

lemma parse_headers_from_step {builder : RequestBuilder} {state : ParserState} {b : Nat}
    {builder2 : RequestBuilder} {state2 : ParserState}
    (h : parse_headers_step builder state b = ParseResult.ok (HeaderStep.next builder2 state2))
    {rest : List Nat} :
    parse_headers_from builder state (b :: rest) = parse_headers_from builder2 state2 rest := by
  rw [parse_headers_from_cons, h]

lemma parse_headers_from_done {builder : RequestBuilder} {state : ParserState} {b : Nat}
    {builder2 : RequestBuilder}
    (h : parse_headers_step builder state b = ParseResult.ok (HeaderStep.done builder2))
    {rest : List Nat} :
    parse_headers_from builder state (b :: rest) = ParseResult.ok (builder2, rest) := by
  rw [parse_headers_from_cons, h]

lemma parse_headers_from_err {builder : RequestBuilder} {state : ParserState} {b : Nat}
    {e : ParseError} (h : parse_headers_step builder state b = ParseResult.err e)
    {rest : List Nat} :
    parse_headers_from builder state (b :: rest) = ParseResult.err e := by
  rw [parse_headers_from_cons, h]

lemma string_from_utf8_ascii {bs : List Nat} (h : bs.all (fun b => b < 128) = true) :
    string_from_utf8 bs = some (bytes_to_string bs) := by
  simp [string_from_utf8, bytes_to_string, h]

lemma is_tchar_lt {c : Nat} (h : is_tchar c = true) : c < 128 := by
  simp [is_tchar] at h
  omega

lemma is_target_byte_lt {b : Nat} (h : is_target_byte b = true) : b < 128 := by
  simp [is_target_byte] at h
  omega

lemma value_keep_lt {b : Nat} (h : value_keep b = true) : b < 128 := by
  simp [value_keep] at h
  omega

lemma all_tchar_lt {N : List Nat} (hN : N.all is_tchar = true) :
    N.all (fun b => b < 128) = true := by
  simp only [List.all_eq_true] at hN ⊢
  intro x hx
  simpa using is_tchar_lt (hN x hx)

lemma parse_request_method_aux_tchar (acc : List Nat) {b : Nat} (hb : is_tchar b = true)
    (rest : List Nat) :
    parse_request_method_aux acc (b :: rest) = parse_request_method_aux (acc ++ [b]) rest := by
  have hc : TokenType.ofByte b = TokenType.TChar b := by
    simp [TokenType.ofByte, hb]
  rw [parse_request_method_aux_cons, hc]

lemma parse_request_method_aux_run (M : List Nat) (hM : M.all is_tchar = true) :
    ∀ acc rest : List Nat,
      parse_request_method_aux acc (M ++ 32 :: rest) =
        ParseResult.ok (Method.ofName (acc ++ M), rest) := by
  induction M with
  | nil =>
    intro acc rest
    rw [List.append_nil]
    rfl
  | cons c M ih =>
    intro acc rest
    simp only [List.all_cons, Bool.and_eq_true] at hM
    rw [List.cons_append, parse_request_method_aux_tchar acc hM.1, ih hM.2]
    simp

lemma parse_request_target_aux_allowed (acc : List Nat) {b : Nat}
    (hb : is_target_byte b = true) (rest : List Nat) :
    parse_request_target_aux acc (b :: rest) = parse_request_target_aux (acc ++ [b]) rest := by
  rw [parse_request_target_aux_cons, if_pos hb]

lemma parse_request_target_aux_run (T : List Nat) (hT : T.all is_target_byte = true) :
    ∀ acc rest : List Nat, acc.all (fun b => b < 128) = true →
      parse_request_target_aux acc (T ++ 32 :: rest) =
        ParseResult.ok (bytes_to_string (acc ++ T), rest) := by
  induction T with
  | nil =>
    intro acc rest hacc
    rw [List.nil_append, List.append_nil, parse_request_target_aux_cons]
    simp [show is_target_byte 32 = false from by decide, string_from_utf8_ascii hacc]
  | cons c T ih =>
    intro acc rest hacc
    simp only [List.all_cons, Bool.and_eq_true] at hT
    have hacc2 : (acc ++ [c]).all (fun b => b < 128) = true := by
      simp [List.all_append, hacc]
      exact is_target_byte_lt hT.1
    rw [List.cons_append, parse_request_target_aux_allowed acc hT.1, ih hT.2 (acc ++ [c]) rest hacc2]
    simp

lemma parse_request_version_run (a b : Nat) (rest : List Nat)
    (ha : 48 ≤ a ∧ a ≤ 57) (hb : 48 ≤ b ∧ b ≤ 57) :
    parse_request_version (http_literal ++ a :: 46 :: b :: 13 :: 10 :: rest) =
      ParseResult.ok ((a - 48, b - 48), rest) := by
  simp [parse_request_version, http_literal, parse_literal, parse_digit, parse_single,
    ParseResult.bind, ha.1, ha.2, hb.1, hb.2]

lemma parse_request_line_run (builder : RequestBuilder) (M T : List Nat) (a b : Nat)
    (rest : List Nat) (hM : M.all is_tchar = true) (hT : T.all is_target_byte = true)
    (ha : 48 ≤ a ∧ a ≤ 57) (hb : 48 ≤ b ∧ b ≤ 57) :
    parse_request_line builder
        (M ++ 32 :: (T ++ 32 :: (http_literal ++ a :: 46 :: b :: 13 :: 10 :: rest))) =
      ParseResult.ok
        (((builder.set_method (Method.ofName M)).set_target
            (bytes_to_string T)).set_version (a - 48) (b - 48), rest) := by
  simp [parse_request_line, parse_request_method, parse_request_target,
    parse_request_method_aux_run M hM, parse_request_target_aux_run T hT,
    parse_request_version_run a b rest ha hb, ParseResult.bind]

end WebServer

namespace WebServer

lemma name_step_eq (builder : RequestBuilder) (n : List Nat) (b : Nat) :
    name_step builder n b =
      match TokenType.ofByte b with
      | TokenType.TChar c => ParseResult.ok (HeaderStep.next builder (ParserState.Name (n ++ [c])))
      | TokenType.Invalid c =>
        if c = 58 then
          match string_from_utf8 n with
          | some name => ParseResult.ok (HeaderStep.next builder (ParserState.ValueLeadingWS name))
          | none => ParseResult.panicked
        else ParseResult.err ParseError.IllegalCharacter := rfl

lemma parse_headers_step_start (builder : RequestBuilder) (b : Nat) :
    parse_headers_step builder ParserState.Start b =
      if b = 13 then ParseResult.ok (HeaderStep.next builder ParserState.FinalNewLine)
      else name_step builder [] b := rfl

lemma parse_headers_name_run (N : List Nat) (hN : N.all is_tchar = true) :
    ∀ (builder : RequestBuilder) (acc rest : List Nat),
      parse_headers_from builder (ParserState.Name acc) (N ++ rest) =
        parse_headers_from builder (ParserState.Name (acc ++ N)) rest := by
  induction N with
  | nil =>
    intro builder acc rest
    rw [List.nil_append, List.append_nil]
  | cons c N ih =>
    intro builder acc rest
    simp only [List.all_cons, Bool.and_eq_true] at hN
    have hc : TokenType.ofByte c = TokenType.TChar c := by
      simp [TokenType.ofByte, hN.1]
    have hstep : parse_headers_step builder (ParserState.Name acc) c =
        ParseResult.ok (HeaderStep.next builder (ParserState.Name (acc ++ [c]))) := by
      show name_step builder acc c = _
      rw [name_step_eq, hc]
    rw [List.cons_append, parse_headers_from_step hstep, ih hN.2]
    simp

lemma parse_headers_start_name (N : List Nat) (hne : N ≠ []) (hN : N.all is_tchar = true)
    (builder : RequestBuilder) (rest : List Nat) :
    parse_headers_from builder ParserState.Start (N ++ rest) =
      parse_headers_from builder (ParserState.Name N) rest := by
  cases N with
  | nil => exact absurd rfl hne
  | cons c N =>
    simp only [List.all_cons, Bool.and_eq_true] at hN
    have hc13 : c ≠ 13 := by
      intro h
      rw [h] at hN
      simp [is_tchar] at hN
    have hc : TokenType.ofByte c = TokenType.TChar c := by
      simp [TokenType.ofByte, hN.1]
    have hstep : parse_headers_step builder ParserState.Start c =
        ParseResult.ok (HeaderStep.next builder (ParserState.Name [c])) := by
      rw [parse_headers_step_start, if_neg hc13, name_step_eq, hc]
      rfl
    rw [List.cons_append, parse_headers_from_step hstep,
      parse_headers_name_run N hN.2 builder [c] rest]
    rfl

lemma parse_headers_name_colon (builder : RequestBuilder) (N : List Nat)
    (hN : N.all (fun b => b < 128) = true) (rest : List Nat) :
    parse_headers_from builder (ParserState.Name N) (58 :: rest) =
      parse_headers_from builder (ParserState.ValueLeadingWS (bytes_to_string N)) rest := by
  have hstep : parse_headers_step builder (ParserState.Name N) 58 =
      ParseResult.ok (HeaderStep.next builder (ParserState.ValueLeadingWS (bytes_to_string N))) := by
    show name_step builder N 58 = _
    rw [name_step_eq, show TokenType.ofByte 58 = TokenType.Invalid 58 from by decide]
    show (match string_from_utf8 N with
      | some name => ParseResult.ok (HeaderStep.next builder (ParserState.ValueLeadingWS name))
      | none => ParseResult.panicked) = _
    rw [string_from_utf8_ascii hN]
  rw [parse_headers_from_step hstep]

lemma parse_headers_value_run (V : List Nat) (hV : V.all is_value_byte = true) :
    ∀ (builder : RequestBuilder) (n : String) (acc rest : List Nat),
      acc.all (fun b => b < 128) = true →
      parse_headers_from builder (ParserState.Value n acc) (V ++ 13 :: rest) =
        parse_headers_from
          (builder.add_header n (bytes_to_string (acc ++ V.filter value_keep)))
          ParserState.NewLine rest := by
  induction V with
  | nil =>
    intro builder n acc rest hacc
    have hstep : parse_headers_step builder (ParserState.Value n acc) 13 =
        ParseResult.ok (HeaderStep.next (builder.add_header n (bytes_to_string acc))
          ParserState.NewLine) := by
      simp [parse_headers_step, value_step,
        show value_keep 13 = false from by decide,
        show is_high_byte 13 = false from by decide,
        string_from_utf8_ascii hacc]
    rw [List.nil_append, parse_headers_from_step hstep]
    simp
  | cons c V ih =>
    intro builder n acc rest hacc
    simp only [List.all_cons, Bool.and_eq_true] at hV
    by_cases hk : value_keep c = true
    · have hacc2 : (acc ++ [c]).all (fun b => b < 128) = true := by
        simp [List.all_append, hacc]
        exact value_keep_lt hk
      have hstep : parse_headers_step builder (ParserState.Value n acc) c =
          ParseResult.ok (HeaderStep.next builder (ParserState.Value n (acc ++ [c]))) := by
        simp [parse_headers_step, value_step, hk]
      rw [List.cons_append, parse_headers_from_step hstep,
        ih hV.2 builder n (acc ++ [c]) rest hacc2, List.filter_cons_of_pos hk]
      simp
    · have hkF : value_keep c = false := by
        simpa using hk
      have hhigh : is_high_byte c = true := by
        have h1 := hV.1
        simp only [is_value_byte, Bool.or_eq_true] at h1
        rcases h1 with h1 | h1
        · exact absurd h1 hk
        · exact h1
      have hstep : parse_headers_step builder (ParserState.Value n acc) c =
          ParseResult.ok (HeaderStep.next builder (ParserState.Value n acc)) := by
        simp [parse_headers_step, value_step, hkF, hhigh]
      rw [List.cons_append, parse_headers_from_step hstep, ih hV.2 builder n acc rest hacc,
        List.filter_cons_of_neg (by simp [hkF])]

lemma parse_headers_ws_to_value {builder : RequestBuilder} {n : String} {c : Nat}
    (hws : is_ows c = false) (rest : List Nat) :
    parse_headers_from builder (ParserState.ValueLeadingWS n) (c :: rest) =
      parse_headers_from builder (ParserState.Value n []) (c :: rest) := by
  rw [parse_headers_from_cons, parse_headers_from_cons]
  have h : parse_headers_step builder (ParserState.ValueLeadingWS n) c =
      parse_headers_step builder (ParserState.Value n []) c := by
    simp [parse_headers_step, hws]
  rw [h]

lemma parse_headers_leadingws_run (V : List Nat) (hV : V.all is_value_byte = true) :
    ∀ (builder : RequestBuilder) (n : String) (rest : List Nat),
      parse_headers_from builder (ParserState.ValueLeadingWS n) (V ++ 13 :: rest) =
        parse_headers_from
          (builder.add_header n (bytes_to_string ((V.dropWhile is_ows).filter value_keep)))
          ParserState.NewLine rest := by
  induction V with
  | nil =>
    intro builder n rest
    rw [List.nil_append, parse_headers_ws_to_value (by decide) rest,
      show (13 : Nat) :: rest = ([] : List Nat) ++ 13 :: rest from rfl,
      parse_headers_value_run [] rfl builder n [] rest rfl]
    simp
  | cons c V ih =>
    intro builder n rest
    simp only [List.all_cons, Bool.and_eq_true] at hV
    by_cases hws : is_ows c = true
    · have hstep : parse_headers_step builder (ParserState.ValueLeadingWS n) c =
          ParseResult.ok (HeaderStep.next builder (ParserState.ValueLeadingWS n)) := by
        simp [parse_headers_step, hws]
      rw [List.cons_append, parse_headers_from_step hstep, ih hV.2 builder n rest,
        List.dropWhile_cons]
      simp [hws]
    · have hwsF : is_ows c = false := by
        simpa using hws
      rw [List.cons_append, parse_headers_ws_to_value hwsF (V ++ 13 :: rest),
        show c :: (V ++ 13 :: rest) = (c :: V) ++ 13 :: rest from rfl,
        parse_headers_value_run (c :: V) (by simp [hV.1, hV.2]) builder n [] rest rfl,
        List.dropWhile_cons]
      simp [hwsF]

lemma parse_headers_newline (builder : RequestBuilder) (rest : List Nat) :
    parse_headers_from builder ParserState.NewLine (10 :: rest) =
      parse_headers_from builder ParserState.Start rest := rfl

lemma parse_headers_end (builder : RequestBuilder) (rest : List Nat) :
    parse_headers_from builder ParserState.Start (13 :: 10 :: rest) =
      ParseResult.ok (builder, rest) := rfl

lemma parse_headers_line (N V : List Nat) (hne : N ≠ []) (hN : N.all is_tchar = true)
    (hV : V.all is_value_byte = true) (builder : RequestBuilder) (rest : List Nat) :
    parse_headers_from builder ParserState.Start (N ++ 58 :: (V ++ 13 :: 10 :: rest)) =
      parse_headers_from
        (builder.add_header (bytes_to_string N)
          (bytes_to_string ((V.dropWhile is_ows).filter value_keep)))
        ParserState.Start rest := by
  rw [parse_headers_start_name N hne hN, parse_headers_name_colon builder N (all_tchar_lt hN),
    show V ++ 13 :: 10 :: rest = V ++ 13 :: (10 :: rest) from rfl,
    parse_headers_leadingws_run V hV builder (bytes_to_string N) (10 :: rest),
    parse_headers_newline]

end WebServer

namespace WebServer

lemma request_from_eq (input : List Nat) :
    request_from input =
      ParseResult.bind (parse_request_line RequestBuilder.new input) (fun br =>
      ParseResult.bind (parse_headers br.1 br.2) (fun hr =>
      match hr.1.into_request with
      | some req => ParseResult.ok req
      | none => ParseResult.panicked)) := rfl

lemma parse_headers_eq (builder : RequestBuilder) (input : List Nat) :
    parse_headers builder input = parse_headers_from builder ParserState.Start input := rfl

lemma get_header_nil (key : String) : get_header [] key = none := rfl

lemma get_header_cons (k v : String) (rest : List (String × String)) (key : String) :
    get_header ((k, v) :: rest) key =
      match get_header rest key with
      | some r => some r
      | none => if k = key then some v else none := rfl

lemma dropWhile_visible {V : List Nat} (hV : V.all (fun b => 33 ≤ b && b ≤ 126) = true) :
    V.dropWhile is_ows = V := by
  cases V with
  | nil => rfl
  | cons v V' =>
    simp only [List.all_cons, Bool.and_eq_true] at hV
    have h1 := hV.1
    have hws0 : is_ows v = false := by
      simp only [Bool.and_eq_true, decide_eq_true_eq] at h1
      simp [is_ows]
      omega
    rw [List.dropWhile_cons, if_neg (by simp [hws0])]

lemma filter_visible {V : List Nat} (hV : V.all (fun b => 33 ≤ b && b ≤ 126) = true) :
    V.filter value_keep = V := by
  rw [List.filter_eq_self]
  intro a ha
  have h := List.all_eq_true.mp hV a ha
  simp only [Bool.and_eq_true, decide_eq_true_eq] at h
  simp [value_keep]
  omega

lemma visible_all_value {V : List Nat} (hV : V.all (fun b => 33 ≤ b && b ≤ 126) = true) :
    (32 :: V).all is_value_byte = true := by
  simp only [List.all_cons, Bool.and_eq_true]
  constructor
  · decide
  · simp only [List.all_eq_true] at hV ⊢
    intro x hx
    have h := hV x hx
    simp only [Bool.and_eq_true, decide_eq_true_eq] at h
    simp [is_value_byte, value_keep]
    omega

/-- C1: for every request-line `"M T HTTP/a.b\r\n"` with `M` a known verb,
`T` made of allowed target bytes and `a`, `b` single ASCII digits,
followed by an empty header block, parsing succeeds and reproduces the
method, target and version exactly, with empty headers and no body. -/
theorem c1_request_line_roundtrip (M T : List Nat) (a b : Nat)
    (hM : M ∈ known_verbs) (hT : T.all is_target_byte = true)
    (ha : 48 ≤ a ∧ a ≤ 57) (hb : 48 ≤ b ∧ b ≤ 57) :
    request_from (M ++ 32 :: (T ++ 32 :: (http_literal ++ a :: 46 :: b :: 13 :: 10 :: [13, 10]))) =
      ParseResult.ok
        { version := (a - 48, b - 48), method := Method.ofName M,
          target := bytes_to_string T, headers := [], body := none } := by
  have hMt : M.all is_tchar = true := by
    simp only [known_verbs, List.mem_cons, List.not_mem_nil, or_false] at hM
    rcases hM with h | h | h | h | h | h | h | h | h <;> subst h <;> decide
  rw [request_from_eq, parse_request_line_run RequestBuilder.new M T a b [13, 10] hMt hT ha hb]
  simp only [ParseResult.bind]
  rw [parse_headers_eq, parse_headers_end]
  rfl

/-- Witness for C1: the spec's example
`"GET /test/path?k=v&k2 HTTP/1.1\r\n\r\n"` parses to
`Request{version:(1,1), method:Get, target:"/test/path?k=v&k2", headers:{}, body:None}`. -/
theorem c1_request_line_roundtrip_witness :
    request_from
        ([71, 69, 84] ++ 32 ::
          ([47, 116, 101, 115, 116, 47, 112, 97, 116, 104, 63, 107, 61, 118, 38, 107, 50] ++
            32 :: (http_literal ++ 49 :: 46 :: 49 :: 13 :: 10 :: [13, 10]))) =
      ParseResult.ok
        { version := (1, 1), method := Method.Get, target := "/test/path?k=v&k2",
          headers := [], body := none } := by
  have h := c1_request_line_roundtrip [71, 69, 84]
    [47, 116, 101, 115, 116, 47, 112, 97, 116, 104, 63, 107, 61, 118, 38, 107, 50]
    49 49 (by decide) (by decide) (by decide) (by decide)
  exact h.trans (by decide)

/-- C2: a header block `"Name: value\r\n\r\n"` with a tchar name and a
visible-ASCII value records the pair name → value in the builder, and on
duplicate names the last occurrence wins: for `"A: 1\r\nA: 2\r\n\r\n"`
the stored value of `A` is `"2"`. -/
theorem c2_header_roundtrip_last_wins (N V : List Nat) (hne : N ≠ [])
    (hN : N.all is_tchar = true) (hV : V.all (fun b => 33 ≤ b && b ≤ 126) = true) :
    (parse_headers RequestBuilder.new (N ++ 58 :: ((32 :: V) ++ 13 :: 10 :: [13, 10])) =
        ParseResult.ok
          (RequestBuilder.new.add_header (bytes_to_string N) (bytes_to_string V), []) ∧
      get_header
          (RequestBuilder.new.add_header (bytes_to_string N) (bytes_to_string V)).headers
          (bytes_to_string N) =
        some (bytes_to_string V)) ∧
    (parse_headers RequestBuilder.new [65, 58, 32, 49, 13, 10, 65, 58, 32, 50, 13, 10, 13, 10] =
        ParseResult.ok
          ({ RequestBuilder.new with headers := [("A", "1"), ("A", "2")] }, []) ∧
      get_header [("A", "1"), ("A", "2")] "A" = some "2") := by
  refine ⟨⟨?_, ?_⟩, by decide, by decide⟩
  · rw [parse_headers_eq,
      parse_headers_line N (32 :: V) hne hN (visible_all_value hV) RequestBuilder.new [13, 10],
      parse_headers_end]
    rw [List.dropWhile_cons, if_pos (by decide : is_ows 32 = true), dropWhile_visible hV,
      filter_visible hV]
  · rw [show (RequestBuilder.new.add_header (bytes_to_string N) (bytes_to_string V)).headers =
        [(bytes_to_string N, bytes_to_string V)] from rfl,
      get_header_cons, get_header_nil]
    show (if bytes_to_string N = bytes_to_string N then some (bytes_to_string V) else none) = _
    rw [if_pos rfl]

/-- Witness for C2 at name `"Name"` and value `"value"`, together with the
duplicate-header example. -/
theorem c2_header_roundtrip_last_wins_witness :
    (parse_headers RequestBuilder.new
          ([78, 97, 109, 101] ++ 58 :: ((32 :: [118, 97, 108, 117, 101]) ++ 13 :: 10 :: [13, 10])) =
        ParseResult.ok
          (RequestBuilder.new.add_header (bytes_to_string [78, 97, 109, 101])
            (bytes_to_string [118, 97, 108, 117, 101]), []) ∧
      get_header
          (RequestBuilder.new.add_header (bytes_to_string [78, 97, 109, 101])
            (bytes_to_string [118, 97, 108, 117, 101])).headers
          (bytes_to_string [78, 97, 109, 101]) =
        some (bytes_to_string [118, 97, 108, 117, 101])) ∧
    (parse_headers RequestBuilder.new [65, 58, 32, 49, 13, 10, 65, 58, 32, 50, 13, 10, 13, 10] =
        ParseResult.ok
          ({ RequestBuilder.new with headers := [("A", "1"), ("A", "2")] }, []) ∧
      get_header [("A", "1"), ("A", "2")] "A" = some "2") :=
  c2_header_roundtrip_last_wins [78, 97, 109, 101] [118, 97, 108, 117, 101]
    (by decide) (by decide) (by decide)

end WebServer

namespace WebServer

lemma parse_literal_nil_input (e : Nat) (es : List Nat) :
    parse_literal (e :: es) [] = ParseResult.err ParseError.EOF := rfl

lemma parse_literal_cons (e : Nat) (es : List Nat) (b : Nat) (rest : List Nat) :
    parse_literal (e :: es) (b :: rest) =
      if b = e then parse_literal es rest
      else ParseResult.err ParseError.IllegalCharacter := rfl

lemma parse_request_version_eq (input : List Nat) :
    parse_request_version input =
      ParseResult.bind (parse_literal http_literal input) (fun r1 =>
      ParseResult.bind (parse_digit r1) (fun mr =>
      ParseResult.bind (parse_single 46 mr.2) (fun r2 =>
      ParseResult.bind (parse_digit r2) (fun nr =>
      ParseResult.bind (parse_single 13 nr.2) (fun r3 =>
      ParseResult.bind (parse_single 10 r3) (fun r4 =>
      ParseResult.ok ((mr.1, nr.1), r4))))))) := rfl

/-- C3: a request-line whose version part deviates from
`HTTP/<digit>.<digit>\r\n` — a wrong byte inside the `HTTP/` literal, a
non-digit in the major or minor position, or a byte other than `\r`/`\n`
where the line terminator should be — fails with `IllegalCharacter`, and
`IllegalCharacter` maps to HTTP status 400. -/
theorem c3_version_illegal_character :
    (∀ k bad rest, k < 5 → bad ≠ http_literal.getD k 0 →
      parse_request_version (http_literal.take k ++ bad :: rest) =
        ParseResult.err ParseError.IllegalCharacter) ∧
    (∀ b rest, ¬(48 ≤ b ∧ b ≤ 57) →
      parse_request_version (http_literal ++ b :: rest) =
        ParseResult.err ParseError.IllegalCharacter) ∧
    (∀ a b rest, (48 ≤ a ∧ a ≤ 57) → ¬(48 ≤ b ∧ b ≤ 57) →
      parse_request_version (http_literal ++ a :: 46 :: b :: rest) =
        ParseResult.err ParseError.IllegalCharacter) ∧
    (∀ a b c rest, (48 ≤ a ∧ a ≤ 57) → (48 ≤ b ∧ b ≤ 57) → c ≠ 13 →
      parse_request_version (http_literal ++ a :: 46 :: b :: c :: rest) =
        ParseResult.err ParseError.IllegalCharacter) ∧
    (∀ a b c rest, (48 ≤ a ∧ a ≤ 57) → (48 ≤ b ∧ b ≤ 57) → c ≠ 10 →
      parse_request_version (http_literal ++ a :: 46 :: b :: 13 :: c :: rest) =
        ParseResult.err ParseError.IllegalCharacter) ∧
    ParseError.IllegalCharacter.http_response_code = some 400 := by
  refine ⟨?_, ?_, ?_, ?_, ?_, rfl⟩
  · intro k bad rest hk hbad
    interval_cases k <;>
      simp only [http_literal, List.getD_cons_zero, List.getD_cons_succ] at hbad <;>
      simp [parse_request_version_eq, http_literal, parse_literal, ParseResult.bind, hbad]
  · intro b rest hb
    simp [parse_request_version_eq, http_literal, parse_literal, parse_digit,
      ParseResult.bind, hb]
  · intro a b rest ha hb
    simp [parse_request_version_eq, http_literal, parse_literal, parse_digit, parse_single,
      ParseResult.bind, ha.1, ha.2, hb]
  · intro a b c rest ha hb hc
    simp [parse_request_version_eq, http_literal, parse_literal, parse_digit, parse_single,
      ParseResult.bind, ha.1, ha.2, hb.1, hb.2, hc]
  · intro a b c rest ha hb hc
    simp [parse_request_version_eq, http_literal, parse_literal, parse_digit, parse_single,
      ParseResult.bind, ha.1, ha.2, hb.1, hb.2, hc]

/-- Witness for C3: concrete inputs for each failure mode — `"XTTP/..."`,
`"HTTP/x"`, `"HTTP/1.x"`, `"HTTP/1.1X"`, `"HTTP/1.1\rX"` — all fail with
`IllegalCharacter`, which maps to status 400. -/
theorem c3_version_illegal_character_witness :
    parse_request_version (88 :: [49, 46, 49, 13, 10]) =
        ParseResult.err ParseError.IllegalCharacter ∧
    parse_request_version (http_literal ++ 120 :: [46, 49, 13, 10]) =
        ParseResult.err ParseError.IllegalCharacter ∧
    parse_request_version (http_literal ++ 49 :: 46 :: 120 :: [13, 10]) =
        ParseResult.err ParseError.IllegalCharacter ∧
    parse_request_version (http_literal ++ 49 :: 46 :: 49 :: 88 :: [10]) =
        ParseResult.err ParseError.IllegalCharacter ∧
    parse_request_version (http_literal ++ 49 :: 46 :: 49 :: 13 :: 88 :: []) =
        ParseResult.err ParseError.IllegalCharacter ∧
    ParseError.IllegalCharacter.http_response_code = some 400 :=
  ⟨c3_version_illegal_character.1 0 88 [49, 46, 49, 13, 10] (by decide) (by decide),
   c3_version_illegal_character.2.1 120 [46, 49, 13, 10] (by decide),
   c3_version_illegal_character.2.2.1 49 120 [13, 10] (by decide) (by decide),
   c3_version_illegal_character.2.2.2.1 49 49 88 [10] (by decide) (by decide) (by decide),
   c3_version_illegal_character.2.2.2.2.1 49 49 88 [] (by decide) (by decide) (by decide),
   c3_version_illegal_character.2.2.2.2.2⟩

/-- C4: a stream that ends before the grammar reaches a clean terminal
match fails with `EOF`: end of input inside the method or target loop,
end of input in any state of the header FSM, and in particular the bytes
`"GET /x"` with nothing following; `EOF` maps to no HTTP response
(`http_response_code = none`). -/
theorem c4_eof_on_truncated_input :
    (∀ acc, parse_request_method_aux acc [] = ParseResult.err ParseError.EOF) ∧
    (∀ acc, parse_request_target_aux acc [] = ParseResult.err ParseError.EOF) ∧
    (∀ e es, parse_literal (e :: es) [] = ParseResult.err ParseError.EOF) ∧
    parse_digit [] = ParseResult.err ParseError.EOF ∧
    (∀ c, parse_single c [] = ParseResult.err ParseError.EOF) ∧
    (∀ builder state, parse_headers_from builder state [] = ParseResult.err ParseError.EOF) ∧
    request_from [71, 69, 84, 32, 47, 120] = ParseResult.err ParseError.EOF ∧
    ParseError.EOF.http_response_code = none := by
  exact ⟨fun _ => rfl, fun _ => rfl, fun _ _ => rfl, rfl, fun _ => rfl, fun _ _ => rfl,
    by decide, rfl⟩

end WebServer

namespace WebServer

lemma all_of_dropWhile {p q : Nat → Bool} {l : List Nat} (h : l.all p = true) :
    (l.dropWhile q).all p = true := by
  induction l with
  | nil => rfl
  | cons a l ih =>
    simp only [List.all_cons, Bool.and_eq_true] at h
    rw [List.dropWhile_cons]
    by_cases hq : q a = true
    · simp [hq, ih h.2]
    · simp [List.all_cons, hq, h.1, h.2]

/-- C5: a header line whose value contains bytes in 0x80–0xFF parses
without failing; those bytes are silently discarded and are absent from
the stored value, while every tab/visible-ASCII byte (after the leading
whitespace) is preserved: the stored value is the value bytes with
leading OWS removed and then exactly the bytes ≥ 0x80 removed. -/
theorem c5_high_bytes_discarded (N V : List Nat) (hne : N ≠ [])
    (hN : N.all is_tchar = true) (hV : V.all is_value_byte = true) :
    parse_headers RequestBuilder.new (N ++ 58 :: (V ++ 13 :: 10 :: [13, 10])) =
      ParseResult.ok
        (RequestBuilder.new.add_header (bytes_to_string N)
          (bytes_to_string ((V.dropWhile is_ows).filter (fun b => b < 128))), []) := by
  rw [parse_headers_eq, parse_headers_line N V hne hN hV RequestBuilder.new [13, 10],
    parse_headers_end]
  have hall : (V.dropWhile is_ows).all is_value_byte = true := all_of_dropWhile hV
  have hfc : (V.dropWhile is_ows).filter value_keep =
      (V.dropWhile is_ows).filter (fun b => b < 128) := by
    apply List.filter_congr
    intro a ha
    have hv := List.all_eq_true.mp hall a ha
    simp only [is_value_byte, Bool.or_eq_true] at hv
    rcases hv with hv | hv
    · have hlt := value_keep_lt hv
      simp [hv, hlt]
    · simp only [is_high_byte, Bool.and_eq_true, decide_eq_true_eq] at hv
      have h2 : value_keep a = false := by
        simp [value_keep]
        omega
      have h1 : ¬(a < 128) := by omega
      simp [h2, h1]
  rw [hfc]

/-- Witness for C5: the line `"A: x\x80y\r\n\r\n"` (value bytes
space, `x`, 0xC8, `y`) parses successfully and stores `A → "xy"` with the
high byte gone. -/
theorem c5_high_bytes_discarded_witness :
    parse_headers RequestBuilder.new ([65] ++ 58 :: ([32, 120, 200, 121] ++ 13 :: 10 :: [13, 10])) =
      ParseResult.ok (RequestBuilder.new.add_header "A" "xy", []) := by
  have h := c5_high_bytes_discarded [65] [32, 120, 200, 121] (by decide) (by decide) (by decide)
  exact h.trans (by decide)

/-- C10: for every parsed header line the stored value equals the raw
value bytes with the leading spaces/tabs removed and the 0x80–0xFF bytes
removed, and nothing else changed — interior and trailing whitespace are
preserved verbatim (`value_keep` keeps tab, space and all visible ASCII). -/
theorem c10_value_trailing_ws_preserved (N V : List Nat) (hne : N ≠ [])
    (hN : N.all is_tchar = true) (hV : V.all is_value_byte = true) :
    parse_headers RequestBuilder.new (N ++ 58 :: (V ++ 13 :: 10 :: [13, 10])) =
      ParseResult.ok
        (RequestBuilder.new.add_header (bytes_to_string N)
          (bytes_to_string ((V.dropWhile is_ows).filter value_keep)), []) := by
  rw [parse_headers_eq, parse_headers_line N V hne hN hV RequestBuilder.new [13, 10],
    parse_headers_end]

/-- Witness for C10: the value bytes `"  x \t\xC8 "` (two leading spaces,
then `x`, space, tab, 0xC8, trailing space) are stored as `"x \t "`:
leading whitespace and the high byte are gone, interior and trailing
whitespace survive. -/
theorem c10_value_trailing_ws_preserved_witness :
    parse_headers RequestBuilder.new
        ([65] ++ 58 :: ([32, 32, 120, 32, 9, 200, 32] ++ 13 :: 10 :: [13, 10])) =
      ParseResult.ok (RequestBuilder.new.add_header "A" "x \t ", []) := by
  have h := c10_value_trailing_ws_preserved [65] [32, 32, 120, 32, 9, 200, 32]
    (by decide) (by decide) (by decide)
  exact h.trans (by decide)

lemma parse_request_method_aux_skip (M : List Nat) (hM : M.all is_tchar = true) :
    ∀ acc rest : List Nat,
      parse_request_method_aux acc (M ++ rest) = parse_request_method_aux (acc ++ M) rest := by
  induction M with
  | nil =>
    intro acc rest
    rw [List.nil_append, List.append_nil]
  | cons c M ih =>
    intro acc rest
    simp only [List.all_cons, Bool.and_eq_true] at hM
    rw [List.cons_append, parse_request_method_aux_tchar acc hM.1, ih hM.2]
    simp

lemma parse_request_target_aux_skip (T : List Nat) (hT : T.all is_target_byte = true) :
    ∀ acc rest : List Nat,
      parse_request_target_aux acc (T ++ rest) = parse_request_target_aux (acc ++ T) rest := by
  induction T with
  | nil =>
    intro acc rest
    rw [List.nil_append, List.append_nil]
  | cons c T ih =>
    intro acc rest
    simp only [List.all_cons, Bool.and_eq_true] at hT
    rw [List.cons_append, parse_request_target_aux_allowed acc hT.1, ih hT.2]
    simp

/-- C6: a byte the grammar does not permit at its position fails the parse
with `IllegalCharacter`: in the method, a byte that is neither a tchar nor
the terminating space; in the target, a byte outside the allowed URI byte
ranges other than the terminating space; in a header name, a byte that is
neither a tchar nor `:` (such as the space of `"Bad Name: v\r\n"`). -/
theorem c6_illegal_byte_positions :
    (∀ M b rest, M.all is_tchar = true → is_tchar b = false → b ≠ 32 →
      parse_request_method (M ++ b :: rest) = ParseResult.err ParseError.IllegalCharacter) ∧
    (∀ T b rest, T.all is_target_byte = true → is_target_byte b = false → b ≠ 32 →
      parse_request_target (T ++ b :: rest) = ParseResult.err ParseError.IllegalCharacter) ∧
    (∀ N b rest builder, N ≠ [] → N.all is_tchar = true → is_tchar b = false → b ≠ 58 →
      parse_headers builder (N ++ b :: rest) = ParseResult.err ParseError.IllegalCharacter) := by
  refine ⟨?_, ?_, ?_⟩
  · intro M b rest hM hb hb32
    rw [show parse_request_method (M ++ b :: rest) =
          parse_request_method_aux [] (M ++ b :: rest) from rfl,
      parse_request_method_aux_skip M hM [] (b :: rest), parse_request_method_aux_cons,
      show TokenType.ofByte b = TokenType.Invalid b from by simp [TokenType.ofByte, hb]]
    show (if b = 32 then ParseResult.ok (Method.ofName ([] ++ M), rest)
      else ParseResult.err ParseError.IllegalCharacter) = _
    rw [if_neg hb32]
  · intro T b rest hT hb hb32
    rw [show parse_request_target (T ++ b :: rest) =
          parse_request_target_aux [] (T ++ b :: rest) from rfl,
      parse_request_target_aux_skip T hT [] (b :: rest), parse_request_target_aux_cons,
      if_neg (by simp [hb]), if_neg hb32]
  · intro N b rest builder hne hN hb hb58
    rw [parse_headers_eq, parse_headers_start_name N hne hN]
    have hstep : parse_headers_step builder (ParserState.Name N) b =
        ParseResult.err ParseError.IllegalCharacter := by
      show name_step builder N b = _
      rw [name_step_eq, show TokenType.ofByte b = TokenType.Invalid b from by
        simp [TokenType.ofByte, hb]]
      show (if b = 58 then
          (match string_from_utf8 N with
          | some name => ParseResult.ok (HeaderStep.next builder (ParserState.ValueLeadingWS name))
          | none => ParseResult.panicked)
        else ParseResult.err ParseError.IllegalCharacter) = _
      rw [if_neg hb58]
    rw [parse_headers_from_err hstep]

/-- Witness for C6: the method bytes `"GE@ "`, the target `"/\" "`, and the
header line `"Bad Name: v\r\n"` each fail with `IllegalCharacter`. -/
theorem c6_illegal_byte_positions_witness :
    parse_request_method ([71, 69] ++ 64 :: [32]) =
        ParseResult.err ParseError.IllegalCharacter ∧
    parse_request_target ([47] ++ 34 :: [32]) =
        ParseResult.err ParseError.IllegalCharacter ∧
    parse_headers RequestBuilder.new
        ([66, 97, 100] ++ 32 :: [78, 97, 109, 101, 58, 32, 118, 13, 10]) =
      ParseResult.err ParseError.IllegalCharacter :=
  ⟨c6_illegal_byte_positions.1 [71, 69] 64 [32] (by decide) (by decide) (by decide),
   c6_illegal_byte_positions.2.1 [47] 34 [32] (by decide) (by decide) (by decide),
   c6_illegal_byte_positions.2.2 [66, 97, 100] 32 [78, 97, 109, 101, 58, 32, 118, 13, 10]
     RequestBuilder.new (by decide) (by decide) (by decide) (by decide)⟩

end WebServer

namespace WebServer

lemma parse_digit_cons (n : Nat) (rest : List Nat) :
    parse_digit (n :: rest) =
      if 48 ≤ n && n ≤ 57 then ParseResult.ok (n - 48, rest)
      else ParseResult.err ParseError.IllegalCharacter := rfl

lemma parse_single_cons (c b : Nat) (rest : List Nat) :
    parse_single c (b :: rest) =
      if b = c then ParseResult.ok rest
      else ParseResult.err ParseError.IllegalCharacter := rfl

lemma parse_request_line_eq (builder : RequestBuilder) (input : List Nat) :
    parse_request_line builder input =
      ParseResult.bind (parse_request_method input) (fun mr =>
      ParseResult.bind (parse_request_target mr.2) (fun tr =>
      ParseResult.bind (parse_request_version tr.2) (fun vr =>
      ParseResult.ok
        ((((builder.set_method mr.1).set_target tr.1).set_version vr.1.1 vr.1.2), vr.2)))) := rfl

lemma parse_request_method_aux_ne_panicked :
    ∀ input acc : List Nat, parse_request_method_aux acc input ≠ ParseResult.panicked := by
  intro input
  induction input with
  | nil => intro acc h; exact ParseResult.noConfusion h
  | cons b rest ih =>
    intro acc
    rw [parse_request_method_aux_cons]
    by_cases ht : is_tchar b = true
    · rw [show TokenType.ofByte b = TokenType.TChar b from by simp [TokenType.ofByte, ht]]
      exact ih (acc ++ [b])
    · rw [show TokenType.ofByte b = TokenType.Invalid b from by simp [TokenType.ofByte, ht]]
      show (if b = 32 then ParseResult.ok (Method.ofName acc, rest)
        else ParseResult.err ParseError.IllegalCharacter) ≠ _
      intro h
      split at h <;> exact ParseResult.noConfusion h

lemma parse_request_target_aux_ne_panicked :
    ∀ input acc : List Nat, acc.all (fun x => x < 128) = true →
      parse_request_target_aux acc input ≠ ParseResult.panicked := by
  intro input
  induction input with
  | nil => intro acc hacc h; exact ParseResult.noConfusion h
  | cons b rest ih =>
    intro acc hacc
    rw [parse_request_target_aux_cons]
    by_cases htb : is_target_byte b = true
    · rw [if_pos htb]
      refine ih (acc ++ [b]) ?_
      simp [List.all_append, hacc]
      exact is_target_byte_lt htb
    · rw [if_neg (by simp [htb])]
      by_cases h32 : b = 32
      · rw [if_pos h32, string_from_utf8_ascii hacc]
        intro h
        exact ParseResult.noConfusion h
      · rw [if_neg h32]
        intro h
        exact ParseResult.noConfusion h

lemma parse_literal_ne_panicked :
    ∀ L input : List Nat, parse_literal L input ≠ ParseResult.panicked := by
  intro L
  induction L with
  | nil => intro input h; exact ParseResult.noConfusion h
  | cons e es ih =>
    intro input
    cases input with
    | nil => intro h; exact ParseResult.noConfusion h
    | cons b rest =>
      rw [parse_literal_cons]
      by_cases hbe : b = e
      · rw [if_pos hbe]
        exact ih rest
      · rw [if_neg hbe]
        intro h
        exact ParseResult.noConfusion h

lemma parse_digit_ne_panicked :
    ∀ input : List Nat, parse_digit input ≠ ParseResult.panicked := by
  intro input
  cases input with
  | nil => intro h; exact ParseResult.noConfusion h
  | cons n rest =>
    rw [parse_digit_cons]
    intro h
    split at h <;> exact ParseResult.noConfusion h

lemma parse_single_ne_panicked :
    ∀ (c : Nat) (input : List Nat), parse_single c input ≠ ParseResult.panicked := by
  intro c input
  cases input with
  | nil => intro h; exact ParseResult.noConfusion h
  | cons b rest =>
    rw [parse_single_cons]
    intro h
    split at h <;> exact ParseResult.noConfusion h

lemma bind_ne_panicked_of {α β : Type} {x : ParseResult α} {f : α → ParseResult β}
    (hx : x ≠ ParseResult.panicked) (hf : ∀ a, f a ≠ ParseResult.panicked) :
    ParseResult.bind x f ≠ ParseResult.panicked := by
  cases x with
  | ok a => exact hf a
  | err e => intro h; exact ParseResult.noConfusion h
  | panicked => exact absurd rfl hx

lemma parse_request_version_ne_panicked (input : List Nat) :
    parse_request_version input ≠ ParseResult.panicked := by
  rw [parse_request_version_eq]
  refine bind_ne_panicked_of (parse_literal_ne_panicked _ _) (fun r1 => ?_)
  refine bind_ne_panicked_of (parse_digit_ne_panicked _) (fun mr => ?_)
  refine bind_ne_panicked_of (parse_single_ne_panicked _ _) (fun r2 => ?_)
  refine bind_ne_panicked_of (parse_digit_ne_panicked _) (fun nr => ?_)
  refine bind_ne_panicked_of (parse_single_ne_panicked _ _) (fun r3 => ?_)
  refine bind_ne_panicked_of (parse_single_ne_panicked _ _) (fun r4 => ?_)
  intro h
  exact ParseResult.noConfusion h

lemma parse_request_line_ne_panicked (builder : RequestBuilder) (input : List Nat) :
    parse_request_line builder input ≠ ParseResult.panicked := by
  rw [parse_request_line_eq]
  refine bind_ne_panicked_of (parse_request_method_aux_ne_panicked input []) (fun mr => ?_)
  refine bind_ne_panicked_of (parse_request_target_aux_ne_panicked mr.2 [] rfl) (fun tr => ?_)
  refine bind_ne_panicked_of (parse_request_version_ne_panicked tr.2) (fun vr => ?_)
  intro h
  exact ParseResult.noConfusion h

end WebServer

namespace WebServer

lemma value_step_eq (builder : RequestBuilder) (n : String) (v : List Nat) (b : Nat) :
    value_step builder n v b =
      if value_keep b then
        ParseResult.ok (HeaderStep.next builder (ParserState.Value n (v ++ [b])))
      else if is_high_byte b then
        ParseResult.ok (HeaderStep.next builder (ParserState.Value n v))
      else if b = 13 then
        match string_from_utf8 v with
        | some value =>
          ParseResult.ok (HeaderStep.next (builder.add_header n value) ParserState.NewLine)
        | none => ParseResult.panicked
      else ParseResult.err ParseError.IllegalCharacter := rfl

lemma parse_headers_step_vlws (builder : RequestBuilder) (n : String) (b : Nat) :
    parse_headers_step builder (ParserState.ValueLeadingWS n) b =
      if is_ows b then ParseResult.ok (HeaderStep.next builder (ParserState.ValueLeadingWS n))
      else value_step builder n [] b := rfl

lemma parse_headers_step_newline (builder : RequestBuilder) (b : Nat) :
    parse_headers_step builder ParserState.NewLine b =
      if b = 10 then ParseResult.ok (HeaderStep.next builder ParserState.Start)
      else ParseResult.err ParseError.IllegalCharacter := rfl

lemma parse_headers_step_final (builder : RequestBuilder) (b : Nat) :
    parse_headers_step builder ParserState.FinalNewLine b =
      if b = 10 then ParseResult.ok (HeaderStep.done builder)
      else ParseResult.err ParseError.IllegalCharacter := rfl

lemma name_step_result (builder : RequestBuilder) (n : List Nat) (b : Nat)
    (hn : n.all (fun x => x < 128) = true) :
    (name_step builder n b =
        ParseResult.ok (HeaderStep.next builder (ParserState.Name (n ++ [b]))) ∧ b < 128) ∨
    name_step builder n b =
        ParseResult.ok (HeaderStep.next builder (ParserState.ValueLeadingWS (bytes_to_string n))) ∨
    name_step builder n b = ParseResult.err ParseError.IllegalCharacter := by
  by_cases ht : is_tchar b = true
  · exact Or.inl ⟨by
      rw [name_step_eq, show TokenType.ofByte b = TokenType.TChar b from by
        simp [TokenType.ofByte, ht]], is_tchar_lt ht⟩
  · right
    rw [name_step_eq, show TokenType.ofByte b = TokenType.Invalid b from by
      simp [TokenType.ofByte, ht]]
    by_cases h58 : b = 58
    · left
      show (if b = 58 then
          (match string_from_utf8 n with
          | some name => ParseResult.ok (HeaderStep.next builder (ParserState.ValueLeadingWS name))
          | none => ParseResult.panicked)
        else ParseResult.err ParseError.IllegalCharacter) = _
      rw [if_pos h58, string_from_utf8_ascii hn]
    · right
      show (if b = 58 then
          (match string_from_utf8 n with
          | some name => ParseResult.ok (HeaderStep.next builder (ParserState.ValueLeadingWS name))
          | none => ParseResult.panicked)
        else ParseResult.err ParseError.IllegalCharacter) = _
      rw [if_neg h58]

lemma value_step_result (builder : RequestBuilder) (n : String) (v : List Nat) (b : Nat)
    (hv : v.all (fun x => x < 128) = true) :
    (value_step builder n v b =
        ParseResult.ok (HeaderStep.next builder (ParserState.Value n (v ++ [b]))) ∧ b < 128) ∨
    value_step builder n v b =
        ParseResult.ok (HeaderStep.next builder (ParserState.Value n v)) ∨
    value_step builder n v b =
        ParseResult.ok (HeaderStep.next (builder.add_header n (bytes_to_string v))
          ParserState.NewLine) ∨
    value_step builder n v b = ParseResult.err ParseError.IllegalCharacter := by
  rw [value_step_eq]
  by_cases hk : value_keep b = true
  · exact Or.inl ⟨by rw [if_pos hk], value_keep_lt hk⟩
  · right
    rw [if_neg (by simp [hk])]
    by_cases hh : is_high_byte b = true
    · left
      rw [if_pos hh]
    · right
      rw [if_neg (by simp [hh])]
      by_cases h13 : b = 13
      · left
        rw [if_pos h13, string_from_utf8_ascii hv]
      · right
        rw [if_neg h13]

lemma headers_continue_case {builder builder2 : RequestBuilder} {state state2 : ParserState}
    {b : Nat} {rest : List Nat}
    (hstep : parse_headers_step builder state b = ParseResult.ok (HeaderStep.next builder2 state2))
    (hpres : builder2.version = builder.version ∧ builder2.method = builder.method ∧
      builder2.target = builder.target)
    (ih : parse_headers_from builder2 state2 rest ≠ ParseResult.panicked ∧
      ∀ (b2 : RequestBuilder) (r : List Nat),
        parse_headers_from builder2 state2 rest = ParseResult.ok (b2, r) →
          b2.version = builder2.version ∧ b2.method = builder2.method ∧
            b2.target = builder2.target) :
    parse_headers_from builder state (b :: rest) ≠ ParseResult.panicked ∧
      ∀ (b2 : RequestBuilder) (r : List Nat),
        parse_headers_from builder state (b :: rest) = ParseResult.ok (b2, r) →
          b2.version = builder.version ∧ b2.method = builder.method ∧
            b2.target = builder.target := by
  rw [parse_headers_from_step hstep]
  refine ⟨ih.1, fun b2 r h => ?_⟩
  have h2 := ih.2 b2 r h
  exact ⟨h2.1.trans hpres.1, h2.2.1.trans hpres.2.1, h2.2.2.trans hpres.2.2⟩

lemma headers_err_case {builder : RequestBuilder} {state : ParserState} {b : Nat}
    {e : ParseError} {rest : List Nat}
    (hstep : parse_headers_step builder state b = ParseResult.err e) :
    parse_headers_from builder state (b :: rest) ≠ ParseResult.panicked ∧
      ∀ (b2 : RequestBuilder) (r : List Nat),
        parse_headers_from builder state (b :: rest) = ParseResult.ok (b2, r) →
          b2.version = builder.version ∧ b2.method = builder.method ∧
            b2.target = builder.target := by
  rw [parse_headers_from_err hstep]
  exact ⟨fun h => ParseResult.noConfusion h, fun b2 r h => ParseResult.noConfusion h⟩

lemma add_header_pres (builder : RequestBuilder) (k v : String) :
    (builder.add_header k v).version = builder.version ∧
      (builder.add_header k v).method = builder.method ∧
      (builder.add_header k v).target = builder.target := ⟨rfl, rfl, rfl⟩

lemma parse_headers_from_props :
    ∀ (input : List Nat) (builder : RequestBuilder) (state : ParserState),
      (match state with
       | ParserState.Name n => n.all (fun x => x < 128) = true
       | ParserState.Value _ v => v.all (fun x => x < 128) = true
       | _ => True) →
      parse_headers_from builder state input ≠ ParseResult.panicked ∧
        ∀ (b2 : RequestBuilder) (r : List Nat),
          parse_headers_from builder state input = ParseResult.ok (b2, r) →
            b2.version = builder.version ∧ b2.method = builder.method ∧
              b2.target = builder.target := by
  intro input
  induction input with
  | nil =>
    intro builder state hwf
    exact ⟨fun h => ParseResult.noConfusion h, fun b2 r h => ParseResult.noConfusion h⟩
  | cons b rest ih =>
    intro builder state hwf
    cases state with
    | Start =>
      by_cases h13 : b = 13
      · subst h13
        exact headers_continue_case rfl ⟨rfl, rfl, rfl⟩
          (ih builder ParserState.FinalNewLine trivial)
      · have hs : parse_headers_step builder ParserState.Start b = name_step builder [] b := by
          rw [parse_headers_step_start, if_neg h13]
        rcases name_step_result builder [] b rfl with ⟨hstep, hlt⟩ | hstep | hstep
        · refine headers_continue_case (hs.trans hstep) ⟨rfl, rfl, rfl⟩
            (ih builder (ParserState.Name ([] ++ [b])) ?_)
          simp [hlt]
        · exact headers_continue_case (hs.trans hstep) ⟨rfl, rfl, rfl⟩
            (ih builder (ParserState.ValueLeadingWS (bytes_to_string [])) trivial)
        · exact headers_err_case (hs.trans hstep)
    | Name n =>
      have hn : n.all (fun x => x < 128) = true := hwf
      rcases name_step_result builder n b hn with ⟨hstep, hlt⟩ | hstep | hstep
      · refine headers_continue_case hstep ⟨rfl, rfl, rfl⟩
          (ih builder (ParserState.Name (n ++ [b])) ?_)
        simp [List.all_append, hn, hlt]
      · exact headers_continue_case hstep ⟨rfl, rfl, rfl⟩
          (ih builder (ParserState.ValueLeadingWS (bytes_to_string n)) trivial)
      · exact headers_err_case hstep
    | ValueLeadingWS n =>
      by_cases hws : is_ows b = true
      · have hstep : parse_headers_step builder (ParserState.ValueLeadingWS n) b =
            ParseResult.ok (HeaderStep.next builder (ParserState.ValueLeadingWS n)) := by
          rw [parse_headers_step_vlws, if_pos hws]
        exact headers_continue_case hstep ⟨rfl, rfl, rfl⟩
          (ih builder (ParserState.ValueLeadingWS n) trivial)
      · have hs : parse_headers_step builder (ParserState.ValueLeadingWS n) b =
            value_step builder n [] b := by
          rw [parse_headers_step_vlws, if_neg (by simp [hws])]
        rcases value_step_result builder n [] b rfl with ⟨hstep, hlt⟩ | hstep | hstep | hstep
        · refine headers_continue_case (hs.trans hstep) ⟨rfl, rfl, rfl⟩
            (ih builder (ParserState.Value n ([] ++ [b])) ?_)
          simp [hlt]
        · exact headers_continue_case (hs.trans hstep) ⟨rfl, rfl, rfl⟩
            (ih builder (ParserState.Value n []) rfl)
        · exact headers_continue_case (hs.trans hstep) (add_header_pres builder n _)
            (ih (builder.add_header n (bytes_to_string [])) ParserState.NewLine trivial)
        · exact headers_err_case (hs.trans hstep)
    | Value n v =>
      have hv : v.all (fun x => x < 128) = true := hwf
      rcases value_step_result builder n v b hv with ⟨hstep, hlt⟩ | hstep | hstep | hstep
      · refine headers_continue_case hstep ⟨rfl, rfl, rfl⟩
          (ih builder (ParserState.Value n (v ++ [b])) ?_)
        simp [List.all_append, hv, hlt]
      · exact headers_continue_case hstep ⟨rfl, rfl, rfl⟩ (ih builder (ParserState.Value n v) hv)
      · exact headers_continue_case hstep (add_header_pres builder n _)
          (ih (builder.add_header n (bytes_to_string v)) ParserState.NewLine trivial)
      · exact headers_err_case hstep
    | NewLine =>
      by_cases h10 : b = 10
      · subst h10
        exact headers_continue_case rfl ⟨rfl, rfl, rfl⟩ (ih builder ParserState.Start trivial)
      · exact headers_err_case (by rw [parse_headers_step_newline, if_neg h10])
    | FinalNewLine =>
      by_cases h10 : b = 10
      · subst h10
        have hstep : parse_headers_step builder ParserState.FinalNewLine 10 =
            ParseResult.ok (HeaderStep.done builder) := rfl
        rw [parse_headers_from_done hstep]
        refine ⟨fun h => ParseResult.noConfusion h, fun b2 r h => ?_⟩
        injection h with h1
        rw [Prod.mk.injEq] at h1
        obtain ⟨h2, h3⟩ := h1
        subst h2
        exact ⟨rfl, rfl, rfl⟩
      · exact headers_err_case (by rw [parse_headers_step_final, if_neg h10])

end WebServer

namespace WebServer

lemma parse_request_line_fields {builder : RequestBuilder} {input : List Nat}
    {br : RequestBuilder × List Nat}
    (h : parse_request_line builder input = ParseResult.ok br) :
    br.1.version.isSome = true ∧ br.1.method.isSome = true ∧ br.1.target.isSome = true := by
  rw [parse_request_line_eq] at h
  cases hm : parse_request_method input with
  | err e => rw [hm] at h; exact ParseResult.noConfusion h
  | panicked => rw [hm] at h; exact ParseResult.noConfusion h
  | ok mr =>
    rw [hm] at h
    simp only [ParseResult.bind] at h
    cases ht : parse_request_target mr.2 with
    | err e => rw [ht] at h; exact ParseResult.noConfusion h
    | panicked => rw [ht] at h; exact ParseResult.noConfusion h
    | ok tr =>
      rw [ht] at h
      simp only [ParseResult.bind] at h
      cases hv : parse_request_version tr.2 with
      | err e => rw [hv] at h; exact ParseResult.noConfusion h
      | panicked => rw [hv] at h; exact ParseResult.noConfusion h
      | ok vr =>
        rw [hv] at h
        simp only [ParseResult.bind] at h
        injection h with h1
        rw [← h1]
        exact ⟨rfl, rfl, rfl⟩

lemma into_request_isSome (rb : RequestBuilder) (h1 : rb.version.isSome = true)
    (h2 : rb.method.isSome = true) (h3 : rb.target.isSome = true) :
    ∃ req, rb.into_request = some req := by
  obtain ⟨ver, met, tar, hs, bd⟩ := rb
  cases ver with
  | none => simp at h1
  | some v =>
    cases met with
    | none => simp at h2
    | some m =>
      cases tar with
      | none => simp at h3
      | some t => exact ⟨_, rfl⟩

/-- C7: `Request::from` never panics, whatever the input stream holds:
whenever the request line parses, the builder has version, method and
target set, so `into_request().unwrap()` cannot fail; and the
`String::from_utf8(..).unwrap()` calls on the target, header names and
header values only ever see ASCII byte lists. -/
theorem c7_request_from_never_panics (input : List Nat) :
    request_from input ≠ ParseResult.panicked := by
  rw [request_from_eq]
  cases hline : parse_request_line RequestBuilder.new input with
  | panicked => exact absurd hline (parse_request_line_ne_panicked _ _)
  | err e => intro h; exact ParseResult.noConfusion h
  | ok br =>
    simp only [ParseResult.bind]
    cases hhdr : parse_headers br.1 br.2 with
    | panicked =>
      exact absurd hhdr (parse_headers_from_props br.2 br.1 ParserState.Start trivial).1
    | err e => intro h; exact ParseResult.noConfusion h
    | ok hr =>
      simp only [ParseResult.bind]
      obtain ⟨hv, hm, ht⟩ := parse_request_line_fields hline
      obtain ⟨b2, r⟩ := hr
      obtain ⟨pv, pm, pt⟩ :=
        (parse_headers_from_props br.2 br.1 ParserState.Start trivial).2 b2 r hhdr
      obtain ⟨req, hreq⟩ := into_request_isSome b2 (by rw [pv]; exact hv)
        (by rw [pm]; exact hm) (by rw [pt]; exact ht)
      rw [hreq]
      intro h
      exact ParseResult.noConfusion h

end WebServer

namespace WebServer

lemma StreamReader.next_eq (s : StreamReader) :
    s.next =
      if s.index ≥ s.read then
        match s.fill_buffer with
        | (false, s1) => (none, s1)
        | (true, s1) =>
          if s1.index ≥ s1.read then (none, s1)
          else (some (s1.buffer.getD s1.index 0), { s1 with index := s1.index + 1 })
      else
        (some (s.buffer.getD s.index 0), { s with index := s.index + 1 }) := rfl

lemma StreamReader.step_back_eq (s : StreamReader) :
    s.step_back =
      if s.index > 0 then (some (), { s with index := s.index - 1 })
      else (none, s) := rfl

/-- C8: a successful `next()` returning `Some b` can always be undone by
an immediately following `step_back()`, after which `next()` returns
`Some b` again and restores the very same state; and whenever
`step_back()` fails (returns `none`) it leaves the reader unchanged. -/
theorem c8_step_back_undoes_next (s s' t : StreamReader) (b : Nat)
    (h : s.next = (some b, s')) (hf : (t.step_back).1 = none) :
    (s'.step_back).1 = some () ∧ ((s'.step_back).2).next = (some b, s') ∧
      (t.step_back).2 = t := by
  have ht : (t.step_back).2 = t := by
    by_cases hti : t.index > 0
    · rw [StreamReader.step_back_eq, if_pos hti] at hf
      exact Option.noConfusion hf
    · rw [StreamReader.step_back_eq, if_neg hti]
  obtain ⟨cks, buf, idx, rd⟩ := s
  rw [StreamReader.next_eq] at h
  by_cases hi : idx ≥ rd
  · rw [if_pos hi] at h
    cases cks with
    | nil =>
      simp only [StreamReader.fill_buffer] at h
      rw [if_pos (Nat.le_refl 0)] at h
      rw [Prod.mk.injEq] at h
      exact Option.noConfusion h.1
    | cons c cs =>
      simp only [StreamReader.fill_buffer] at h
      by_cases hc : (0 : Nat) ≥ c.length
      · rw [if_pos hc] at h
        rw [Prod.mk.injEq] at h
        exact Option.noConfusion h.1
      · rw [if_neg hc] at h
        rw [Prod.mk.injEq] at h
        obtain ⟨hb, hs⟩ := h
        subst hs
        refine ⟨rfl, ?_, ht⟩
        rw [StreamReader.step_back_eq, if_pos (Nat.succ_pos 0)]
        rw [StreamReader.next_eq]
        simp only
        rw [if_neg (by simpa using hc)]
        rw [Prod.mk.injEq]
        exact ⟨hb, rfl⟩
  · rw [if_neg hi] at h
    rw [Prod.mk.injEq] at h
    obtain ⟨hb, hs⟩ := h
    subst hs
    refine ⟨?_, ?_, ht⟩
    · rw [StreamReader.step_back_eq, if_pos (Nat.succ_pos idx)]
    · rw [StreamReader.step_back_eq, if_pos (Nat.succ_pos idx)]
      rw [StreamReader.next_eq]
      simp only [Nat.add_sub_cancel]
      rw [if_neg hi]
      rw [Prod.mk.injEq]
      exact ⟨hb, rfl⟩

/-- Witness for C8: on the reader whose stream will yield the single chunk
`[5]`, `next()` returns `Some 5`; `step_back()` then succeeds and `next()`
returns `Some 5` again with the same state; on a fresh reader whose
cursor is at 0, `step_back()` fails and changes nothing. -/
theorem c8_step_back_undoes_next_witness :
    ((StreamReader.mk [] [5] 1 1).step_back).1 = some () ∧
      (((StreamReader.mk [] [5] 1 1).step_back).2).next =
        (some 5, StreamReader.mk [] [5] 1 1) ∧
      ((StreamReader.mk [] [] 0 0).step_back).2 = StreamReader.mk [] [] 0 0 :=
  c8_step_back_undoes_next (StreamReader.mk [[5]] [] 0 0) (StreamReader.mk [] [5] 1 1)
    (StreamReader.mk [] [] 0 0) 5 (by decide) (by decide)

/-- C9: parsing is deterministic — the parse result is a function of the
byte sequence alone, so two successful runs over the same bytes yield
structurally equal Requests. -/
theorem c9_parse_deterministic (input : List Nat) (r1 r2 : Request)
    (h1 : request_from input = ParseResult.ok r1)
    (h2 : request_from input = ParseResult.ok r2) : r1 = r2 := by
  rw [h1] at h2
  exact ParseResult.ok.inj h2

/-- Witness for C9 on `"GET / HTTP/1.1\r\n\r\n"`: the parse succeeds and
two runs agree on the resulting Request. -/
theorem c9_parse_deterministic_witness :
    request_from [71, 69, 84, 32, 47, 32, 72, 84, 84, 80, 47, 49, 46, 49, 13, 10, 13, 10] =
      ParseResult.ok
        { version := (1, 1), method := Method.Get, target := "/", headers := [], body := none } ∧
    ({ version := (1, 1), method := Method.Get, target := "/", headers := [],
        body := none } : Request) =
      { version := (1, 1), method := Method.Get, target := "/", headers := [], body := none } :=
  have h : request_from [71, 69, 84, 32, 47, 32, 72, 84, 84, 80, 47, 49, 46, 49, 13, 10, 13, 10] =
      ParseResult.ok
        { version := (1, 1), method := Method.Get, target := "/", headers := [],
          body := none } := by decide
  ⟨h, c9_parse_deterministic _ _ _ h h⟩

end WebServer
